import Mathlib

/-!
Verification of the snake game-state engine in `src/main.py`.

The engine (`class Map`) is embedded shallowly:
* cell values are the integer constants of main.py lines 6-12;
* points are integer pairs `(x, y)` (they may leave the board, so `Int`);
* the grid is the flat `List Nat` that `Map.__init__` allocates
  (`width * height + 1` entries, addressed by `y * width + x`);
* Python exceptions (`IndexError` from `_check_point`, `ValueError` from
  `move_point`) are modelled with `Except` / `Option`: a call that would
  raise evaluates to `.error` / `none`;
* the rejection-sampling randomness of `random_point`/`place_food` is
  modelled by passing the stream of sampled candidate points explicitly as
  a `List Point`; `place_food` consumes it exactly as the `while True`
  loop consumes `random_point()` outputs, and returns `none` when the
  stream is exhausted (the real loop would keep sampling — a run in which
  it never finds an empty cell never returns, hence never yields a state).
-/

namespace Snake

/-- main.py line 6. -/
def EMPTY : Nat := 0
/-- main.py line 7. -/
def NORTH : Nat := 1
/-- main.py line 8. -/
def EAST : Nat := 2
/-- main.py line 9. -/
def SOUTH : Nat := 3
/-- main.py line 10. -/
def WEST : Nat := 4
/-- main.py line 11. -/
def NO_DIRECTION : Nat := 5
/-- main.py line 12. -/
def FOOD : Nat := 6

/-- A grid point `(x, y)`. -/
abbrev Point := Int × Int

/-- Function `move_point` (main.py lines 15-33).  `none` models the `ValueError`
raised on an invalid direction. -/
def move_point (point : Point) (direction : Nat) : Option Point :=
  if direction = NORTH then some (point.1, point.2 - 1)
  else if direction = EAST then some (point.1 + 1, point.2)
  else if direction = SOUTH then some (point.1, point.2 + 1)
  else if direction = WEST then some (point.1 - 1, point.2)
  else if direction = NO_DIRECTION then some point
  else none

/-- The state of `class Map` (main.py lines 36-50): `width`, `height`,
`grid`, `head`, `tail`, `length`. -/
structure Map where
  width : Nat
  height : Nat
  grid : List Nat
  head : Point
  tail : Point
  length : Nat
deriving DecidableEq

/-- Method `Map._check_point` (main.py lines 52-59) as a boolean: `true` means the
point is in bounds, `false` means the method raises `IndexError`. -/
def Map.check_point (m : Map) (p : Point) : Bool :=
  if p.1 < 0 ∨ (m.width : Int) ≤ p.1 then false
  else if p.2 < 0 ∨ (m.height : Int) ≤ p.2 then false
  else true

/-- The flat index `(y * self.width) + x` used by `__getitem__` and
`__setitem__` (main.py lines 64 and 69).  Only meaningful after
`_check_point` has passed, where `x, y ≥ 0`. -/
def Map.idx (m : Map) (p : Point) : Nat :=
  p.2.toNat * m.width + p.1.toNat

/-- The raw grid read `self.grid[(y * self.width) + x]`.  In every state the
engine constructs, `idx < grid.length`, so the `getD` default is never
used. -/
def Map.cell (m : Map) (p : Point) : Nat :=
  m.grid.getD (m.idx p) 0

/-- Method `Map.__getitem__` (main.py lines 61-64); `.error p` models the
`IndexError(point)` raised by `_check_point`. -/
def Map.getItem (m : Map) (p : Point) : Except Point Nat :=
  if m.check_point p then .ok (m.cell p) else .error p

/-- The grid update performed by a successful `__setitem__`. -/
def Map.put (m : Map) (p : Point) (v : Nat) : Map :=
  { m with grid := m.grid.set (m.idx p) v }

/-- Method `Map.__setitem__` (main.py lines 66-69); `.error p` models the
`IndexError(point)` raised by `_check_point`. -/
def Map.setItem (m : Map) (p : Point) (v : Nat) : Except Point Map :=
  if m.check_point p then .ok (m.put p v) else .error p

/-- Method `Map.check_collision` (main.py lines 109-121): `IndexError` from
`_check_point` is caught and yields `True`; `FOOD` yields `False`;
any other non-`EMPTY` value yields `True`. -/
def Map.check_collision (m : Map) (point : Point) : Bool :=
  match m.getItem point with
  | .error _ => true
  | .ok v => if v = FOOD then false else if v ≠ EMPTY then true else false

/-- Method `Map.place_food` (main.py lines 100-107).  `cand` is the stream of
points produced by successive `random_point()` calls (main.py lines 97-98;
always in bounds in a real run, so the `.error` branch never fires there);
non-empty cells are skipped exactly as the loop's `continue` does. -/
def Map.place_food (m : Map) : List Point → Option Map
  | [] => none
  | point :: rest =>
    match m.getItem point with
    | .error _ => none
    | .ok v =>
      if v ≠ EMPTY then m.place_food rest
      else
        match m.setItem point FOOD with
        | .error _ => none
        | .ok m2 => some m2

/-- Constructor `Map.__init__` (main.py lines 37-50): allocate `width * height + 1`
`EMPTY` cells, put the head at `(⌊width/2⌋, ⌊height/2⌋)` with value
`NO_DIRECTION`, `tail = head`, `length = 1`, then `place_food`. -/
def Map.init (width height : Nat) (cand : List Point) : Option Map :=
  let hd : Point := (Int.ofNat (width / 2), Int.ofNat (height / 2))
  let m : Map :=
    { width := width, height := height,
      grid := List.replicate (width * height + 1) EMPTY,
      head := hd, tail := hd, length := 1 }
  match m.setItem hd NO_DIRECTION with
  | .error _ => none
  | .ok m1 => m1.place_food cand

/-- main.py lines 85-95: the part of `Map.move` after the head has been
advanced (`m2` is the state with the old head cell set to `direction` and
`self.head = new_point`). -/
def Map.moveTailPhase (m2 : Map) (direction : Nat) (new_point : Point)
    (cand : List Point) : Option (List String × Map) :=
  match m2.getItem new_point with
  | .error _ => none
  | .ok nv =>
    if nv = FOOD then
      match m2.place_food cand with
      | none => none
      | some m3 =>
        let m4 : Map := { m3 with length := m3.length + 1 }
        match m4.setItem new_point direction with
        | .error _ => none
        | .ok m5 => some (["eat"], m5)
    else
      match m2.getItem m2.tail with
      | .error _ => none
      | .ok tv =>
        match move_point m2.tail tv with
        | none => none
        | some new_tail =>
          match m2.setItem m2.tail EMPTY with
          | .error _ => none
          | .ok m3 =>
            let m4 : Map := { m3 with tail := new_tail }
            match m4.setItem new_point direction with
            | .error _ => none
            | .ok m5 => some ([], m5)

/-- Method `Map.move` (main.py lines 71-95), line by line: compute `new_point`;
on collision return `['die']` with the state untouched; otherwise set the
old head cell to `direction` (once conditionally, lines 79-80, then
unconditionally, line 82), advance `head`, and run the food/tail phase. -/
def Map.move (m : Map) (direction : Nat) (cand : List Point) :
    Option (List String × Map) :=
  match move_point m.head direction with
  | none => none
  | some new_point =>
    if m.check_collision new_point then some (["die"], m)
    else
      match m.getItem m.head with
      | .error _ => none
      | .ok hv =>
        match (if hv = NO_DIRECTION then m.setItem m.head direction
               else .ok m) with
        | .error _ => none
        | .ok mA =>
          match mA.setItem mA.head direction with
          | .error _ => none
          | .ok mB =>
            let m2 : Map := { mB with head := new_point }
            m2.moveTailPhase direction new_point cand

/-- Modelled from the spec (§9, design note on the redundant double set):
`Map.move` with the conditional write of main.py lines 79-80 removed and
only the unconditional write of line 82 kept. -/
def Map.moveUncondOnly (m : Map) (direction : Nat) (cand : List Point) :
    Option (List String × Map) :=
  match move_point m.head direction with
  | none => none
  | some new_point =>
    if m.check_collision new_point then some (["die"], m)
    else
      match m.setItem m.head direction with
      | .error _ => none
      | .ok mB =>
        let m2 : Map := { mB with head := new_point }
        m2.moveTailPhase direction new_point cand

/-- The engine states the program can actually be in: freshly constructed
(`SnakeGUI.__init__` / `on_die`, main.py lines 127 and 192), or the result
of a completed `move` call (`SnakeGUI._tick`, main.py line 223). -/
inductive Reachable : Map → Prop
  | init : ∀ w h cand m, Map.init w h cand = some m → Reachable m
  | step : ∀ m d cand evs m', Reachable m → m.move d cand = some (evs, m') →
      Reachable m'

/-- Walking the grid: starting at `p`, step `n` times, each time moving the
current point by the direction stored in its own cell (the implicit
linked-list encoding of the snake body, spec §3 and §9). -/
def Map.follow (m : Map) (p : Point) : Nat → Option Point
  | 0 => some p
  | n + 1 =>
    match m.getItem p with
    | .error _ => none
    | .ok v =>
      match move_point p v with
      | none => none
      | some q => m.follow q n

/-- All addressable grid cells, as a finite set of points. -/
def Map.allPoints (m : Map) : Finset Point :=
  ((Finset.range m.width) ×ˢ (Finset.range m.height)).image
    (fun q => (Int.ofNat q.1, Int.ofNat q.2))

/-- Number of addressable cells whose value is not `EMPTY`. -/
def Map.nonEmptyCount (m : Map) : Nat :=
  ((m.allPoints).filter (fun p => m.cell p ≠ EMPTY)).card

/-- Number of addressable cells whose value is neither `EMPTY` nor `FOOD`,
i.e. the cells occupied by the snake body. -/
def Map.bodyCount (m : Map) : Nat :=
  ((m.allPoints).filter (fun p => m.cell p ≠ EMPTY ∧ m.cell p ≠ FOOD)).card

/-! ### Bounds, indexing and single-cell updates -/

theorem check_point_iff (m : Map) (p : Point) :
    m.check_point p = true ↔
      0 ≤ p.1 ∧ p.1 < (m.width : Int) ∧ 0 ≤ p.2 ∧ p.2 < (m.height : Int) := by
  simp only [Map.check_point]
  split_ifs with h1 h2 <;> simp <;> omega

theorem idx_lt (m : Map) (p : Point) (hb : m.check_point p = true) :
    m.idx p < m.width * m.height := by
  rw [check_point_iff] at hb
  have hx : p.1.toNat < m.width := by omega
  have hy : p.2.toNat < m.height := by omega
  show p.2.toNat * m.width + p.1.toNat < m.width * m.height
  calc p.2.toNat * m.width + p.1.toNat
      < (p.2.toNat + 1) * m.width := by nlinarith
    _ ≤ m.height * m.width := Nat.mul_le_mul_right _ (by omega)
    _ = m.width * m.height := Nat.mul_comm _ _

theorem idx_inj (m : Map) (p q : Point) (hp : m.check_point p = true)
    (hq : m.check_point q = true) (h : m.idx p = m.idx q) : p = q := by
  rw [check_point_iff] at hp hq
  simp only [Map.idx] at h
  rw [Nat.mul_comm p.2.toNat, Nat.mul_comm q.2.toNat] at h
  have hx : p.1.toNat < m.width := by omega
  have hx' : q.1.toNat < m.width := by omega
  have hmod : p.1.toNat = q.1.toNat := by
    have h1 : (m.width * p.2.toNat + p.1.toNat) % m.width = p.1.toNat := by
      rw [Nat.mul_add_mod]; exact Nat.mod_eq_of_lt hx
    have h2 : (m.width * q.2.toNat + q.1.toNat) % m.width = q.1.toNat := by
      rw [Nat.mul_add_mod]; exact Nat.mod_eq_of_lt hx'
    rw [← h1, ← h2, h]
  have hdiv : p.2.toNat = q.2.toNat := by
    have hw : 0 < m.width := by omega
    have hyy : m.width * p.2.toNat = m.width * q.2.toNat := by omega
    exact Nat.eq_of_mul_eq_mul_left hw hyy
  have hfst : p.1 = q.1 := by omega
  have hsnd : p.2 = q.2 := by omega
  exact Prod.ext hfst hsnd

@[simp] theorem put_width (m : Map) (p : Point) (v : Nat) :
    (m.put p v).width = m.width := rfl

@[simp] theorem put_height (m : Map) (p : Point) (v : Nat) :
    (m.put p v).height = m.height := rfl

@[simp] theorem put_head (m : Map) (p : Point) (v : Nat) :
    (m.put p v).head = m.head := rfl

@[simp] theorem put_tail (m : Map) (p : Point) (v : Nat) :
    (m.put p v).tail = m.tail := rfl

@[simp] theorem put_length (m : Map) (p : Point) (v : Nat) :
    (m.put p v).length = m.length := rfl

@[simp] theorem check_point_put (m : Map) (q p : Point) (v : Nat) :
    (m.put q v).check_point p = m.check_point p := rfl

@[simp] theorem idx_put (m : Map) (q p : Point) (v : Nat) :
    (m.put q v).idx p = m.idx p := rfl

@[simp] theorem grid_length_put (m : Map) (p : Point) (v : Nat) :
    (m.put p v).grid.length = m.grid.length := by
  simp [Map.put]

theorem put_put_same (m : Map) (p : Point) (v w : Nat) :
    (m.put p v).put p w = m.put p w := by
  simp [Map.put, Map.idx, List.set_set]

theorem cell_put_self (m : Map) (p : Point) (v : Nat)
    (hb : m.check_point p = true)
    (hgl : m.grid.length = m.width * m.height + 1) :
    (m.put p v).cell p = v := by
  have hlt : m.idx p < m.grid.length := by
    have := idx_lt m p hb; omega
  show (m.grid.set (m.idx p) v).getD (m.idx p) 0 = v
  rw [List.getD_eq_getElem?_getD, List.getElem?_set_self hlt]
  rfl

theorem cell_put_ne (m : Map) (p q : Point) (v : Nat)
    (hp : m.check_point p = true) (hq : m.check_point q = true)
    (hne : q ≠ p) : (m.put p v).cell q = m.cell q := by
  have hii : m.idx p ≠ m.idx q := fun h => hne (idx_inj m q p hq hp h.symm)
  show (m.grid.set (m.idx p) v).getD (m.idx q) 0 = m.grid.getD (m.idx q) 0
  rw [List.getD_eq_getElem?_getD, List.getElem?_set_ne hii,
    ← List.getD_eq_getElem?_getD]

theorem getItem_ok (m : Map) (p : Point) (hb : m.check_point p = true) :
    m.getItem p = .ok (m.cell p) := by
  simp [Map.getItem, hb]

theorem getItem_err (m : Map) (p : Point) (hb : m.check_point p = false) :
    m.getItem p = .error p := by
  simp [Map.getItem, hb]

theorem setItem_ok (m : Map) (p : Point) (v : Nat)
    (hb : m.check_point p = true) :
    m.setItem p v = .ok (m.put p v) := by
  simp [Map.setItem, hb]

theorem check_collision_false_iff (m : Map) (p : Point) :
    m.check_collision p = false ↔
      m.check_point p = true ∧ (m.cell p = FOOD ∨ m.cell p = EMPTY) := by
  unfold Map.check_collision
  by_cases hb : m.check_point p = true
  · rw [getItem_ok m p hb]
    by_cases h6 : m.cell p = FOOD
    · simp [h6, hb]
    · by_cases h0 : m.cell p = EMPTY <;> simp [h6, h0, hb]
  · rw [getItem_err m p (by simpa using hb)]
    simp [hb]

theorem place_food_spec (m : Map) :
    ∀ cand m', m.place_food cand = some m' →
      ∃ c, m.check_point c = true ∧ m.cell c = EMPTY ∧ m' = m.put c FOOD := by
  intro cand
  induction cand with
  | nil => intro m' h; simp [Map.place_food] at h
  | cons point rest ih =>
    intro m' h
    unfold Map.place_food at h
    by_cases hb : m.check_point point = true
    · rw [getItem_ok m point hb] at h
      by_cases he : m.cell point = EMPTY
      · rw [setItem_ok m point FOOD hb] at h
        simp [he] at h
        exact ⟨point, hb, he, h.symm⟩
      · simp [he] at h
        exact ih m' h
    · rw [getItem_err m point (by simpa using hb)] at h
      simp at h

/-! ### The implicit tail-to-head path through the grid -/

/-- Consecutive points of `l` are linked by the directions stored in their
cells: each point, moved by its own cell's value, gives the next point. -/
def Chain2 (m : Map) : List Point → Prop
  | [] => True
  | [_] => True
  | a :: b :: rest => move_point a (m.cell a) = some b ∧ Chain2 m (b :: rest)

theorem chain2_cons (m : Map) (a : Point) (l : List Point)
    (h : Chain2 m (a :: l)) : Chain2 m l := by
  cases l with
  | nil => exact trivial
  | cons b rest => exact h.2

theorem chain2_congr (m m' : Map) :
    ∀ l : List Point, (∀ p ∈ l.dropLast, m'.cell p = m.cell p) →
      Chain2 m l → Chain2 m' l := by
  intro l
  induction l with
  | nil => exact fun _ _ => trivial
  | cons a rest ih =>
    intro hc h
    cases rest with
    | nil => exact trivial
    | cons b rest2 =>
      have hdl : (a :: b :: rest2).dropLast = a :: (b :: rest2).dropLast := rfl
      constructor
      · rw [hc a (by rw [hdl]; exact List.mem_cons_self a _)]
        exact h.1
      · exact ih (fun p hp => hc p (by rw [hdl]; exact List.mem_cons_of_mem a hp))
          h.2

theorem chain2_concat (m : Map) (q : Point) :
    ∀ l : List Point, Chain2 m l →
      (∀ x, l.getLast? = some x → move_point x (m.cell x) = some q) →
      Chain2 m (l ++ [q]) := by
  intro l
  induction l with
  | nil => exact fun _ _ => trivial
  | cons a rest ih =>
    intro h hlast
    cases rest with
    | nil => exact ⟨hlast a rfl, trivial⟩
    | cons b rest2 =>
      exact ⟨h.1, ih h.2 (fun x hx =>
        hlast x (by rw [List.getLast?_cons_cons]; exact hx))⟩

/-- The invariant of every reachable engine state, with the snake path `ps`
(tail first, head last) and the food position `fp` as explicit witnesses:
the path's cells carry the linking directions (all in `NORTH..WEST`, except
that the head cell may still be `NO_DIRECTION` before the first move), `fp`
is the unique `FOOD` cell, and every other cell is `EMPTY`. -/
structure GoodState (m : Map) (ps : List Point) (fp : Point) : Prop where
  hw : 1 ≤ m.width
  hh : 1 ≤ m.height
  hgl : m.grid.length = m.width * m.height + 1
  hlen : ps.length = m.length
  hfirst : ps.head? = some m.tail
  hlast : ps.getLast? = some m.head
  hchain : Chain2 m ps
  hnodup : ps.Nodup
  hbounds : ∀ p ∈ ps, m.check_point p = true
  hbody : ∀ p ∈ ps, 1 ≤ m.cell p ∧ m.cell p ≤ 5
  hmid : ∀ p ∈ ps.dropLast, 1 ≤ m.cell p ∧ m.cell p ≤ 4
  hfb : m.check_point fp = true
  hfood : m.cell fp = FOOD
  hempty : ∀ p, m.check_point p = true → p ∉ ps → p ≠ fp → m.cell p = EMPTY

theorem GoodState.head_mem {m : Map} {ps : List Point} {fp : Point}
    (hg : GoodState m ps fp) : m.head ∈ ps :=
  List.mem_of_getLast?_eq_some hg.hlast

theorem GoodState.tail_mem {m : Map} {ps : List Point} {fp : Point}
    (hg : GoodState m ps fp) : m.tail ∈ ps := by
  obtain ⟨ys, hys⟩ := List.head?_eq_some_iff.mp hg.hfirst
  rw [hys]; exact List.mem_cons_self _ _

theorem GoodState.food_notin {m : Map} {ps : List Point} {fp : Point}
    (hg : GoodState m ps fp) : fp ∉ ps := by
  intro hmem
  have h5 := (hg.hbody fp hmem).2
  rw [hg.hfood] at h5
  exact absurd h5 (by decide)

theorem GoodState.food_unique {m : Map} {ps : List Point} {fp : Point}
    (hg : GoodState m ps fp) (q : Point)
    (hqb : m.check_point q = true) (hq : m.cell q = FOOD) : q = fp := by
  by_contra hne
  have hq' : q ∉ ps := by
    intro hmem
    have h5 := (hg.hbody q hmem).2
    rw [hq] at h5
    exact absurd h5 (by decide)
  have h0 := hg.hempty q hqb hq' hne
  rw [hq] at h0
  exact absurd h0 (by decide)

theorem GoodState.len_pos {m : Map} {ps : List Point} {fp : Point}
    (hg : GoodState m ps fp) : 1 ≤ m.length := by
  obtain ⟨ys, hys⟩ := List.head?_eq_some_iff.mp hg.hfirst
  have hl := hg.hlen
  rw [hys] at hl
  simp only [List.length_cons] at hl
  omega

theorem mem_dropLast_iff {α : Type _} {l : List α} (hne : l ≠ [])
    (hnd : l.Nodup) (x : α) :
    x ∈ l.dropLast ↔ x ∈ l ∧ x ≠ l.getLast hne := by
  have hsplit := List.dropLast_concat_getLast hne
  constructor
  · intro hx
    have hnd' : (l.dropLast ++ [l.getLast hne]).Nodup := by
      rw [hsplit]; exact hnd
    rw [List.nodup_append] at hnd'
    refine ⟨List.mem_of_mem_dropLast hx, ?_⟩
    intro heq
    exact hnd'.2.2 hx (by simp [heq])
  · rintro ⟨hx, hne'⟩
    rw [← hsplit] at hx
    rcases List.mem_append.mp hx with h | h
    · exact h
    · simp only [List.mem_singleton] at h
      exact absurd h hne'

/-! ### Case analysis of a completed `move` call -/

/-- Every completed `Map.move` call took exactly one of the three source
paths (collision, food, tail advance), and the result state is the stated
sequence of cell writes and field updates. -/
theorem move_cases (m : Map) (d : Nat) (cand : List Point)
    (evs : List String) (m' : Map)
    (h : m.move d cand = some (evs, m')) :
    ∃ np, move_point m.head d = some np ∧
      ((m.check_collision np = true ∧ evs = ["die"] ∧ m' = m) ∨
       (m.check_collision np = false ∧
        m.check_point m.head = true ∧ m.check_point np = true ∧
        ((∃ c, (m.put m.head d).cell np = FOOD ∧ evs = ["eat"] ∧
            m.check_point c = true ∧ (m.put m.head d).cell c = EMPTY ∧
            m' = { ((m.put m.head d).put c FOOD).put np d with
                    head := np, length := m.length + 1 }) ∨
         (∃ nt, (m.put m.head d).cell np ≠ FOOD ∧ evs = [] ∧
            m.check_point m.tail = true ∧
            move_point m.tail ((m.put m.head d).cell m.tail) = some nt ∧
            m' = { ((m.put m.head d).put m.tail EMPTY).put np d with
                    head := np, tail := nt })))) := by
  unfold Map.move at h
  cases hmp : move_point m.head d with
  | none => rw [hmp] at h; simp at h
  | some np =>
    rw [hmp] at h
    refine ⟨np, rfl, ?_⟩
    by_cases hcol : m.check_collision np = true
    · simp only [hcol, if_true] at h
      left
      rw [Option.some_inj] at h
      exact ⟨hcol, congrArg Prod.fst h.symm, congrArg Prod.snd h.symm⟩
    · have hcol' : m.check_collision np = false := by simpa using hcol
      simp only [hcol', Bool.false_eq_true, if_false] at h
      right
      have hnpb : m.check_point np = true :=
        ((check_collision_false_iff m np).mp hcol').1
      by_cases hhd : m.check_point m.head = true
      · refine ⟨hcol', hhd, hnpb, ?_⟩
        rw [getItem_ok m m.head hhd] at h
        simp only [] at h
        -- reduce the conditional double write to a single `put`
        have hs2 : (m.put m.head d).setItem m.head d
            = .ok ((m.put m.head d).put m.head d) :=
          setItem_ok (m.put m.head d) m.head d hhd
        have hred : Map.moveTailPhase { m.put m.head d with head := np }
            d np cand = some (evs, m') := by
          by_cases hv : m.cell m.head = NO_DIRECTION
          · rw [if_pos hv, setItem_ok m m.head d hhd] at h
            simpa only [put_head, hs2, put_put_same] using h
          · rw [if_neg hv] at h
            simpa only [setItem_ok m m.head d hhd] using h
        clear h
        set m1 : Map := m.put m.head d with hm1
        set m2 : Map := { m1 with head := np } with hm2
        have hb2 : m2.check_point np = true := hnpb
        rw [Map.moveTailPhase, getItem_ok m2 np hb2] at hred
        have hcell2 : m2.cell np = m1.cell np := rfl
        by_cases hfood : m1.cell np = FOOD
        · left
          rw [hcell2, hfood] at hred
          simp only [if_pos] at hred
          cases hpf : m2.place_food cand with
          | none => rw [hpf] at hred; simp at hred
          | some m3 =>
            rw [hpf] at hred
            obtain ⟨c, hcb, hcc, hc3⟩ := place_food_spec m2 cand m3 hpf
            have hcb' : m.check_point c = true := hcb
            have hcc' : m1.cell c = EMPTY := hcc
            subst hc3
            set m3 : Map := m2.put c FOOD with hm3
            simp only [] at hred
            have hb4 : (Map.mk m3.width m3.height m3.grid m3.head m3.tail
                (m3.length + 1)).check_point np = true := hnpb
            rw [setItem_ok _ np d hb4] at hred
            simp only [Option.some_inj] at hred
            refine ⟨c, hfood, (congrArg Prod.fst hred).symm, hcb', hcc', ?_⟩
            have hm' := (congrArg Prod.snd hred).symm
            exact hm'.trans rfl
        · right
          rw [hcell2] at hred
          simp only [hfood, if_neg, if_false] at hred
          have ht2 : m2.tail = m.tail := rfl
          by_cases htb : m.check_point m.tail = true
          · have htb2 : m2.check_point m2.tail = true := htb
            rw [getItem_ok m2 m2.tail htb2] at hred
            have hcellt : m2.cell m2.tail = m1.cell m.tail := rfl
            rw [hcellt, ht2] at hred
            simp only [] at hred
            cases hnt : move_point m.tail (m1.cell m.tail) with
            | none => rw [hnt] at hred; simp at hred
            | some nt =>
              rw [hnt] at hred
              rw [setItem_ok m2 m.tail EMPTY htb2] at hred
              set m3 : Map := m2.put m.tail EMPTY with hm3
              simp only [] at hred
              have hb4 : (Map.mk m3.width m3.height m3.grid m3.head nt
                  m3.length).check_point np = true := hnpb
              rw [setItem_ok _ np d hb4] at hred
              simp only [Option.some_inj] at hred
              refine ⟨nt, hfood, (congrArg Prod.fst hred).symm, htb, rfl, ?_⟩
              have hm' := (congrArg Prod.snd hred).symm
              exact hm'.trans rfl
          · rw [getItem_err m2 m2.tail (by simpa [ht2] using htb)] at hred
            simp at hred
      · rw [getItem_err m m.head (by simpa using hhd)] at h
        simp at h

/-! ### Directions -/

theorem dir_of_move_point {p q : Point} {d : Nat}
    (hmp : move_point p d = some q) :
    d = NORTH ∨ d = EAST ∨ d = SOUTH ∨ d = WEST ∨ d = NO_DIRECTION := by
  by_contra hcon
  push_neg at hcon
  obtain ⟨h1, h2, h3, h4, h5⟩ := hcon
  simp [move_point, h1, h2, h3, h4, h5] at hmp

theorem np_ne_of_dir {p q : Point} {d : Nat} (hd : 1 ≤ d ∧ d ≤ 4)
    (hmp : move_point p d = some q) : q ≠ p := by
  intro hqp
  subst hqp
  have h14 : d = 1 ∨ d = 2 ∨ d = 3 ∨ d = 4 := by omega
  rcases h14 with h | h | h | h <;> subst h <;>
    simp [move_point, NORTH, EAST, SOUTH, WEST, NO_DIRECTION,
      Prod.ext_iff] at hmp <;> omega

/-- A completed non-collision move in a good state used a real direction
(`NO_DIRECTION` would step onto the head itself, which is occupied). -/
theorem dir_valid {m : Map} {ps : List Point} {fp : Point}
    (hg : GoodState m ps fp) {d : Nat} {np : Point}
    (hmp : move_point m.head d = some np)
    (hcol : m.check_collision np = false) : 1 ≤ d ∧ d ≤ 4 := by
  rcases dir_of_move_point hmp with h | h | h | h | h
  · subst h; decide
  · subst h; decide
  · subst h; decide
  · subst h; decide
  · exfalso
    subst h
    have hnp : m.head = np := by
      simpa [move_point, NORTH, EAST, SOUTH, WEST, NO_DIRECTION] using hmp
    obtain ⟨hb1, hb2⟩ := hg.hbody m.head hg.head_mem
    have hfe := ((check_collision_false_iff m np).mp hcol).2
    rw [← hnp] at hfe
    simp only [FOOD, EMPTY] at hfe
    omega

/-! ### Reading cells after a chain of writes -/

theorem cell_three_puts (m : Map) (a b e q : Point) (u v w : Nat)
    (hab : m.check_point a = true) (hbb : m.check_point b = true)
    (heb : m.check_point e = true) (hqb : m.check_point q = true)
    (hqa : q ≠ a) (hqbne : q ≠ b) (hqe : q ≠ e) :
    (((m.put a u).put b v).put e w).cell q = m.cell q := by
  rw [cell_put_ne ((m.put a u).put b v) e q w heb hqb hqe,
      cell_put_ne (m.put a u) b q v hbb hqb hqbne,
      cell_put_ne m a q u hab hqb hqa]

theorem cell_three_puts_last (m : Map) (a b e : Point) (u v w : Nat)
    (heb : m.check_point e = true)
    (hgl : m.grid.length = m.width * m.height + 1) :
    (((m.put a u).put b v).put e w).cell e = w :=
  cell_put_self ((m.put a u).put b v) e w heb (by simp [hgl])

theorem cell_three_puts_mid (m : Map) (a b e : Point) (u v w : Nat)
    (hbb : m.check_point b = true) (heb : m.check_point e = true)
    (hgl : m.grid.length = m.width * m.height + 1)
    (hbe : b ≠ e) :
    (((m.put a u).put b v).put e w).cell b = v := by
  rw [cell_put_ne ((m.put a u).put b v) e b w heb hbb hbe]
  exact cell_put_self (m.put a u) b v hbb (by simp [hgl])

theorem cell_three_puts_first (m : Map) (a b e : Point) (u v w : Nat)
    (hab : m.check_point a = true) (hbb : m.check_point b = true)
    (heb : m.check_point e = true)
    (hgl : m.grid.length = m.width * m.height + 1)
    (hane : a ≠ b) (hae : a ≠ e) :
    (((m.put a u).put b v).put e w).cell a = u := by
  rw [cell_put_ne ((m.put a u).put b v) e a w heb hab hae,
      cell_put_ne (m.put a u) b a v hbb hab hane]
  exact cell_put_self m a u hab hgl

/-! ### The constructor establishes the invariant -/

/-- What `Map.__init__` (main.py lines 37-50) produces, in full detail:
board dimensions, head/tail/length, the head cell, the food cell, and
everything else `EMPTY`. -/
theorem init_spec (w h : Nat) (cand : List Point) (m : Map)
    (hi : Map.init w h cand = some m) :
    ∃ c, 1 ≤ w ∧ 1 ≤ h ∧
      m.width = w ∧ m.height = h ∧
      m.head = (Int.ofNat (w / 2), Int.ofNat (h / 2)) ∧
      m.tail = m.head ∧ m.length = 1 ∧
      m.grid.length = w * h + 1 ∧
      m.check_point m.head = true ∧
      m.check_point c = true ∧ c ≠ m.head ∧
      m.cell m.head = NO_DIRECTION ∧ m.cell c = FOOD ∧
      (∀ p, m.check_point p = true → p ≠ m.head → p ≠ c →
        m.cell p = EMPTY) := by
  unfold Map.init at hi
  simp only [] at hi
  set hd : Point := (Int.ofNat (w / 2), Int.ofNat (h / 2)) with hhd
  set m0 : Map := ({ width := w, height := h, grid := List.replicate (w * h + 1) EMPTY, head := hd, tail := hd, length := 1 } : Map) with hm0
  by_cases hb : m0.check_point hd = true
  · rw [setItem_ok m0 hd NO_DIRECTION hb] at hi
    simp only [] at hi
    obtain ⟨c, hcb, hcc, hc⟩ :=
      place_food_spec (m0.put hd NO_DIRECTION) cand m hi
    subst hc
    have hwh : 1 ≤ w ∧ 1 ≤ h := by
      rw [check_point_iff] at hb
      simp only [hm0, hhd] at hb
      omega
    have hgl0 : m0.grid.length = m0.width * m0.height + 1 := by
      simp [hm0]
    have hcell0 : ∀ p : Point, m0.cell p = EMPTY := by
      intro p
      show (List.replicate (w * h + 1) EMPTY).getD _ 0 = EMPTY
      rw [List.getD_eq_getElem?_getD, List.getElem?_replicate]
      split <;> rfl
    have hcellhd : (m0.put hd NO_DIRECTION).cell hd = NO_DIRECTION :=
      cell_put_self m0 hd NO_DIRECTION hb hgl0
    have hcne : c ≠ hd := by
      intro heq
      rw [heq, hcellhd] at hcc
      exact absurd hcc (by decide)
    have hcb' : m0.check_point c = true := hcb
    refine ⟨c, hwh.1, hwh.2, rfl, rfl, rfl, rfl, rfl, ?_, hb, hcb', hcne, ?_, ?_, ?_⟩
    · simp [grid_length_put, hm0]
    · show ((m0.put hd NO_DIRECTION).put c FOOD).cell hd = NO_DIRECTION
      rw [cell_put_ne (m0.put hd NO_DIRECTION) c hd FOOD hcb' hb hcne.symm]
      exact hcellhd
    · exact cell_put_self (m0.put hd NO_DIRECTION) c FOOD hcb' (by simp [hgl0])
    · intro p hpb hp1 hp2
      rw [cell_put_ne (m0.put hd NO_DIRECTION) c p FOOD hcb' hpb hp2,
          cell_put_ne m0 hd p NO_DIRECTION hb hpb hp1]
      exact hcell0 p
  · have hserr : m0.setItem hd NO_DIRECTION = .error hd := by
      simp [Map.setItem, hb]
    rw [hserr] at hi
    simp at hi

/-- A freshly constructed state satisfies the invariant, with the
single-point path `[head]`. -/
theorem init_good (w h : Nat) (cand : List Point) (m : Map)
    (hi : Map.init w h cand = some m) : ∃ fp, GoodState m [m.head] fp := by
  obtain ⟨c, h1w, h1h, hw, hh, hhd, htl, hlen, hgl, hhb, hcb, hcne, hcellh,
    hcellc, hemp⟩ := init_spec w h cand m hi
  refine ⟨c, ?_⟩
  constructor
  · omega
  · omega
  · rw [hw, hh]; exact hgl
  · simp [hlen]
  · rw [htl]; rfl
  · rfl
  · exact trivial
  · simp
  · intro p hp
    simp only [List.mem_singleton] at hp
    rw [hp]; exact hhb
  · intro p hp
    simp only [List.mem_singleton] at hp
    rw [hp, hcellh]
    decide
  · intro p hp
    simp at hp
  · exact hcb
  · exact hcellc
  · intro p hpb hpn hpc
    simp only [List.mem_singleton] at hpn
    exact hemp p hpb hpn hpc

/-! ### `move` preserves the invariant -/

/-- Food branch of `Map.move` (main.py lines 85-88 plus the final write of
line 94): the path grows by the new head, the fresh food cell `c` becomes
the food witness. -/
theorem preserve_eat {m : Map} {ps : List Point} {fp : Point}
    (hg : GoodState m ps fp) {d : Nat} {np c : Point}
    (hd4 : 1 ≤ d ∧ d ≤ 4)
    (hmp : move_point m.head d = some np)
    (hnpb : m.check_point np = true)
    (hnpc : m.cell np = FOOD)
    (hcb : m.check_point c = true)
    (hcc : (m.put m.head d).cell c = EMPTY) :
    GoodState { ((m.put m.head d).put c FOOD).put np d with
                 head := np, length := m.length + 1 } (ps ++ [np]) c := by
  have hhm := hg.head_mem
  have hhb : m.check_point m.head = true := hg.hbounds _ hhm
  have hnph : np ≠ m.head := np_ne_of_dir hd4 hmp
  have hnps : np ∉ ps := by
    intro hmem
    have h2 := (hg.hbody np hmem).2
    rw [hnpc] at h2
    exact absurd h2 (by decide)
  have hcneh : c ≠ m.head := by
    intro heq
    rw [heq, cell_put_self m m.head d hhb hg.hgl] at hcc
    simp only [EMPTY] at hcc
    omega
  have hcc0 : m.cell c = EMPTY := by
    rw [← cell_put_ne m m.head c d hhb hcb hcneh]
    exact hcc
  have hcns : c ∉ ps := by
    intro hmem
    have h1 := (hg.hbody c hmem).1
    rw [hcc0] at h1
    exact absurd h1 (by decide)
  have hcnnp : c ≠ np := by
    intro heq
    rw [heq, hnpc] at hcc0
    exact absurd hcc0 (by decide)
  have hne : ps ≠ [] := by
    intro heq
    rw [heq] at hhm
    exact absurd hhm (List.not_mem_nil _)
  have hgetlast : ps.getLast hne = m.head :=
    (List.getLast_eq_iff_getLast?_eq_some hne).mpr hg.hlast
  -- cells of the new state
  have hcellM : ∀ p, m.check_point p = true → p ≠ m.head → p ≠ c → p ≠ np →
      (((m.put m.head d).put c FOOD).put np d).cell p = m.cell p :=
    fun p hpb h1 h2 h3 =>
      cell_three_puts m m.head c np p d FOOD d hhb hcb hnpb hpb h1 h2 h3
  have hcellhd : (((m.put m.head d).put c FOOD).put np d).cell m.head = d :=
    cell_three_puts_first m m.head c np d FOOD d hhb hcb hnpb hg.hgl
      hcneh.symm hnph.symm
  have hcellnp : (((m.put m.head d).put c FOOD).put np d).cell np = d :=
    cell_three_puts_last m m.head c np d FOOD d hnpb hg.hgl
  have hcellc : (((m.put m.head d).put c FOOD).put np d).cell c = FOOD :=
    cell_three_puts_mid m m.head c np d FOOD d hcb hnpb hg.hgl hcnnp
  have hps_cell : ∀ p, p ∈ ps → p ≠ m.head →
      (((m.put m.head d).put c FOOD).put np d).cell p = m.cell p :=
    fun p hp h1 => hcellM p (hg.hbounds p hp) h1
      (fun heq => hcns (heq ▸ hp)) (fun heq => hnps (heq ▸ hp))
  constructor
  · exact hg.hw
  · exact hg.hh
  · show (((m.grid.set _ _).set _ _).set _ _).length = m.width * m.height + 1
    simp [hg.hgl]
  · show (ps ++ [np]).length = m.length + 1
    simp [hg.hlen]
  · show (ps ++ [np]).head? = some m.tail
    obtain ⟨rest, hps⟩ := List.head?_eq_some_iff.mp hg.hfirst
    rw [hps]
    rfl
  · show (ps ++ [np]).getLast? = some np
    exact List.getLast?_concat ps
  · refine chain2_concat _ np ps ?_ ?_
    · refine chain2_congr m _ ps ?_ hg.hchain
      intro p hp
      have hmem := (mem_dropLast_iff hne hg.hnodup p).mp hp
      exact hps_cell p hmem.1 (hgetlast ▸ hmem.2)
    · intro x hx
      rw [hg.hlast] at hx
      rw [Option.some_inj] at hx
      subst hx
      show move_point m.head ((((m.put m.head d).put c FOOD).put np d).cell m.head) = some np
      rw [hcellhd]
      exact hmp
  · rw [List.nodup_append]
    exact ⟨hg.hnodup, List.nodup_singleton np,
      fun a ha hb => hnps ((List.mem_singleton.mp hb) ▸ ha)⟩
  · intro p hp
    rcases List.mem_append.mp hp with hp | hp
    · exact hg.hbounds p hp
    · rw [List.mem_singleton.mp hp]; exact hnpb
  · intro p hp
    rcases List.mem_append.mp hp with hp | hp
    · by_cases hph : p = m.head
      · subst hph
        show 1 ≤ (((m.put m.head d).put c FOOD).put np d).cell m.head ∧
          (((m.put m.head d).put c FOOD).put np d).cell m.head ≤ 5
        rw [hcellhd]
        omega
      · show 1 ≤ (((m.put m.head d).put c FOOD).put np d).cell p ∧
          (((m.put m.head d).put c FOOD).put np d).cell p ≤ 5
        rw [hps_cell p hp hph]
        exact hg.hbody p hp
    · rw [List.mem_singleton.mp hp]
      show 1 ≤ (((m.put m.head d).put c FOOD).put np d).cell np ∧
        (((m.put m.head d).put c FOOD).put np d).cell np ≤ 5
      rw [hcellnp]
      omega
  · intro p hp
    rw [List.dropLast_concat] at hp
    by_cases hph : p = m.head
    · subst hph
      show 1 ≤ (((m.put m.head d).put c FOOD).put np d).cell m.head ∧
        (((m.put m.head d).put c FOOD).put np d).cell m.head ≤ 4
      rw [hcellhd]
      omega
    · show 1 ≤ (((m.put m.head d).put c FOOD).put np d).cell p ∧
        (((m.put m.head d).put c FOOD).put np d).cell p ≤ 4
      rw [hps_cell p hp hph]
      exact hg.hmid p ((mem_dropLast_iff hne hg.hnodup p).mpr
        ⟨hp, hgetlast ▸ hph⟩)
  · exact hcb
  · exact hcellc
  · intro p hpb hpn hpc
    have hpn1 : p ∉ ps := fun hmem => hpn (List.mem_append.mpr (.inl hmem))
    have hpn2 : p ≠ np := fun heq =>
      hpn (List.mem_append.mpr (.inr (by rw [heq]; exact List.mem_singleton_self np)))
    have hph : p ≠ m.head := fun heq => hpn1 (heq ▸ hhm)
    show (((m.put m.head d).put c FOOD).put np d).cell p = EMPTY
    rw [hcellM p hpb hph hpc hpn2]
    refine hg.hempty p hpb hpn1 ?_
    intro heq
    exact hpn2 (heq.trans (hg.food_unique np hnpb hnpc).symm)

/-- Tail-advance branch of `Map.move` (main.py lines 89-94): the path drops
its first point (the old tail) and gains the new head; food is untouched. -/
theorem preserve_step {m : Map} {ps : List Point} {fp : Point}
    (hg : GoodState m ps fp) {d : Nat} {np nt : Point}
    (hd4 : 1 ≤ d ∧ d ≤ 4)
    (hmp : move_point m.head d = some np)
    (hnpb : m.check_point np = true)
    (hnp0 : m.cell np = EMPTY)
    (hnt : move_point m.tail ((m.put m.head d).cell m.tail) = some nt) :
    GoodState { ((m.put m.head d).put m.tail EMPTY).put np d with
                 head := np, tail := nt } (ps.tail ++ [np]) fp := by
  have hhm := hg.head_mem
  have htm := hg.tail_mem
  have hhb : m.check_point m.head = true := hg.hbounds _ hhm
  have htb : m.check_point m.tail = true := hg.hbounds _ htm
  have hnph : np ≠ m.head := np_ne_of_dir hd4 hmp
  have hnps : np ∉ ps := by
    intro hmem
    have h1 := (hg.hbody np hmem).1
    rw [hnp0] at h1
    exact absurd h1 (by decide)
  have hnpt : np ≠ m.tail := fun heq => hnps (heq ▸ htm)
  have hfns : fp ∉ ps := hg.food_notin
  have hfnp : fp ≠ np := by
    intro heq
    rw [← heq, hg.hfood] at hnp0
    exact absurd hnp0 (by decide)
  have hfnh : fp ≠ m.head := fun heq => hfns (heq ▸ hhm)
  have hfnt : fp ≠ m.tail := fun heq => hfns (heq ▸ htm)
  have hcellt : (((m.put m.head d).put m.tail EMPTY).put np d).cell m.tail
      = EMPTY :=
    cell_three_puts_mid m m.head m.tail np d EMPTY d htb hnpb hg.hgl hnpt.symm
  have hcellnp : (((m.put m.head d).put m.tail EMPTY).put np d).cell np = d :=
    cell_three_puts_last m m.head m.tail np d EMPTY d hnpb hg.hgl
  have hcellM : ∀ p, m.check_point p = true → p ≠ m.head → p ≠ m.tail →
      p ≠ np →
      (((m.put m.head d).put m.tail EMPTY).put np d).cell p = m.cell p :=
    fun p hpb h1 h2 h3 =>
      cell_three_puts m m.head m.tail np p d EMPTY d hhb htb hnpb hpb h1 h2 h3
  have hcellfp : (((m.put m.head d).put m.tail EMPTY).put np d).cell fp
      = FOOD := by
    rw [hcellM fp hg.hfb hfnh hfnt hfnp]
    exact hg.hfood
  obtain ⟨rest, hps⟩ := List.head?_eq_some_iff.mp hg.hfirst
  subst hps
  simp only [List.tail_cons]
  cases rest with
  | nil =>
    -- single-point snake: tail = head, and the new tail is the new head
    have hth : m.tail = m.head := by
      have hl := hg.hlast
      simp only [List.getLast?_singleton, Option.some_inj] at hl
      exact hl
    have hcell1t : (m.put m.head d).cell m.tail = d := by
      rw [hth]
      exact cell_put_self m m.head d hhb hg.hgl
    have hntnp : nt = np := by
      rw [hcell1t, hth, hmp] at hnt
      exact (Option.some_inj.mp hnt).symm
    have hcellhd : (((m.put m.head d).put m.tail EMPTY).put np d).cell m.head
        = EMPTY := by
      have h2 : (((m.put m.head d).put m.tail EMPTY).put np d).cell m.head
          = (((m.put m.head d).put m.tail EMPTY).put np d).cell m.tail := by
        rw [hth]
      exact h2.trans hcellt
    simp only [List.nil_append]
    constructor
    · exact hg.hw
    · exact hg.hh
    · show (((m.grid.set _ _).set _ _).set _ _).length = m.width * m.height + 1
      simp [hg.hgl]
    · show ([np] : List Point).length = m.length
      have := hg.hlen
      simpa using this
    · show ([np] : List Point).head? = some nt
      rw [hntnp]
      rfl
    · show ([np] : List Point).getLast? = some np
      rfl
    · exact trivial
    · simp
    · intro p hp
      simp only [List.nil_append, List.mem_singleton] at hp
      rw [hp]
      exact hnpb
    · intro p hp
      simp only [List.mem_singleton] at hp
      rw [hp]
      show 1 ≤ (((m.put m.head d).put m.tail EMPTY).put np d).cell np ∧
        (((m.put m.head d).put m.tail EMPTY).put np d).cell np ≤ 5
      rw [hcellnp]
      omega
    · intro p hp
      simp at hp
    · exact hg.hfb
    · exact hcellfp
    · intro p hpb hpn hpf
      simp only [List.nil_append, List.mem_singleton] at hpn
      by_cases hph : p = m.head
      · subst hph
        exact hcellhd
      · show (((m.put m.head d).put m.tail EMPTY).put np d).cell p = EMPTY
        rw [hcellM p hpb hph (fun heq => hph (heq.trans hth)) hpn]
        refine hg.hempty p hpb ?_ hpf
        simp only [List.mem_singleton]
        intro heq
        exact hph (heq.trans hth)
  | cons r rest2 =>
    -- snake of length at least 2: tail and head are distinct
    have hlast2 : (r :: rest2).getLast? = some m.head := by
      have hl := hg.hlast
      rwa [List.getLast?_cons_cons] at hl
    have hhm2 : m.head ∈ r :: rest2 := List.mem_of_getLast?_eq_some hlast2
    have hnd := List.nodup_cons.mp hg.hnodup
    have hth : m.tail ≠ m.head := fun heq => hnd.1 (heq ▸ hhm2)
    have htmid : m.tail ∈ (m.tail :: r :: rest2).dropLast := by
      show m.tail ∈ m.tail :: (r :: rest2).dropLast
      exact List.mem_cons_self _ _
    have hcell1t : (m.put m.head d).cell m.tail = m.cell m.tail :=
      cell_put_ne m m.head m.tail d hhb htb hth
    have hntr : nt = r := by
      rw [hcell1t] at hnt
      have hchain1 : move_point m.tail (m.cell m.tail) = some r := by
        have hc := hg.hchain
        exact hc.1
      rw [hchain1] at hnt
      exact (Option.some_inj.mp hnt).symm
    have hne2 : (r :: rest2) ≠ [] := by simp
    have hgetlast2 : (r :: rest2).getLast hne2 = m.head :=
      (List.getLast_eq_iff_getLast?_eq_some hne2).mpr hlast2
    have hcellhd : (((m.put m.head d).put m.tail EMPTY).put np d).cell m.head
        = d :=
      cell_three_puts_first m m.head m.tail np d EMPTY d hhb htb hnpb hg.hgl
        (fun heq => hth heq.symm) hnph.symm
    have hrest_cell : ∀ p, p ∈ r :: rest2 → p ≠ m.head →
        (((m.put m.head d).put m.tail EMPTY).put np d).cell p = m.cell p :=
      fun p hp h1 =>
        hcellM p (hg.hbounds p (List.mem_cons_of_mem _ hp)) h1
          (fun heq => hnd.1 (heq ▸ hp)) (fun heq => hnps (heq ▸
            List.mem_cons_of_mem _ hp))
    constructor
    · exact hg.hw
    · exact hg.hh
    · show (((m.grid.set _ _).set _ _).set _ _).length = m.width * m.height + 1
      simp [hg.hgl]
    · show ((r :: rest2) ++ [np]).length = m.length
      have := hg.hlen
      simp only [List.length_cons] at this
      simp only [List.length_append, List.length_cons, List.length_nil]
      omega
    · show ((r :: rest2) ++ [np]).head? = some nt
      rw [hntr]
      rfl
    · show ((r :: rest2) ++ [np]).getLast? = some np
      exact List.getLast?_concat _
    · refine chain2_concat _ np (r :: rest2) ?_ ?_
      · refine chain2_congr m _ (r :: rest2) ?_ (chain2_cons m m.tail _ hg.hchain)
        intro p hp
        have hmem := (mem_dropLast_iff hne2 hnd.2 p).mp hp
        exact hrest_cell p hmem.1 (hgetlast2 ▸ hmem.2)
      · intro x hx
        rw [hlast2, Option.some_inj] at hx
        subst hx
        show move_point m.head
          ((((m.put m.head d).put m.tail EMPTY).put np d).cell m.head) = some np
        rw [hcellhd]
        exact hmp
    · rw [List.nodup_append]
      refine ⟨hnd.2, List.nodup_singleton np, ?_⟩
      intro a ha hb
      rw [List.mem_singleton.mp hb] at ha
      exact hnps (List.mem_cons_of_mem _ ha)
    · intro p hp
      rcases List.mem_append.mp hp with hp | hp
      · exact hg.hbounds p (List.mem_cons_of_mem _ hp)
      · rw [List.mem_singleton.mp hp]; exact hnpb
    · intro p hp
      rcases List.mem_append.mp hp with hp | hp
      · by_cases hph : p = m.head
        · subst hph
          show 1 ≤ (((m.put m.head d).put m.tail EMPTY).put np d).cell m.head ∧
            (((m.put m.head d).put m.tail EMPTY).put np d).cell m.head ≤ 5
          rw [hcellhd]
          omega
        · show 1 ≤ (((m.put m.head d).put m.tail EMPTY).put np d).cell p ∧
            (((m.put m.head d).put m.tail EMPTY).put np d).cell p ≤ 5
          rw [hrest_cell p hp hph]
          exact hg.hbody p (List.mem_cons_of_mem _ hp)
      · rw [List.mem_singleton.mp hp]
        show 1 ≤ (((m.put m.head d).put m.tail EMPTY).put np d).cell np ∧
          (((m.put m.head d).put m.tail EMPTY).put np d).cell np ≤ 5
        rw [hcellnp]
        omega
    · intro p hp
      rw [List.dropLast_concat] at hp
      by_cases hph : p = m.head
      · subst hph
        show 1 ≤ (((m.put m.head d).put m.tail EMPTY).put np d).cell m.head ∧
          (((m.put m.head d).put m.tail EMPTY).put np d).cell m.head ≤ 4
        rw [hcellhd]
        omega
      · show 1 ≤ (((m.put m.head d).put m.tail EMPTY).put np d).cell p ∧
          (((m.put m.head d).put m.tail EMPTY).put np d).cell p ≤ 4
        rw [hrest_cell p hp hph]
        refine hg.hmid p ?_
        show p ∈ m.tail :: (r :: rest2).dropLast
        exact List.mem_cons_of_mem _ ((mem_dropLast_iff hne2 hnd.2 p).mpr
          ⟨hp, hgetlast2 ▸ hph⟩)
    · exact hg.hfb
    · exact hcellfp
    · intro p hpb hpn hpf
      by_cases hpt : p = m.tail
      · subst hpt
        exact hcellt
      · have hpr : p ∉ r :: rest2 := fun hmem =>
          hpn (List.mem_append.mpr (.inl hmem))
        have hpnp : p ≠ np := by
          intro heq
          exact hpn (List.mem_append.mpr (.inr (by simp [heq])))
        have hph : p ≠ m.head := fun heq => hpr (heq ▸ hhm2)
        show (((m.put m.head d).put m.tail EMPTY).put np d).cell p = EMPTY
        rw [hcellM p hpb hph hpt hpnp]
        refine hg.hempty p hpb ?_ hpf
        intro hmem
        rcases List.mem_cons.mp hmem with h | h
        · exact hpt h
        · exact hpr h

/-- A completed `move` call maps good states to good states. -/
theorem move_preserves {m : Map} {ps : List Point} {fp : Point}
    (hg : GoodState m ps fp) {d : Nat} {cand : List Point}
    {evs : List String} {m' : Map}
    (h : m.move d cand = some (evs, m')) :
    ∃ ps' fp', GoodState m' ps' fp' := by
  obtain ⟨np, hmp, hcase⟩ := move_cases m d cand evs m' h
  rcases hcase with ⟨_, _, rfl⟩ | ⟨hcol, hhd, hnpb, hcase⟩
  · exact ⟨ps, fp, hg⟩
  · have hd4 := dir_valid hg hmp hcol
    have hnph : np ≠ m.head := np_ne_of_dir hd4 hmp
    have hcellnp : (m.put m.head d).cell np = m.cell np :=
      cell_put_ne m m.head np d (hg.hbounds _ hg.head_mem) hnpb hnph
    rcases hcase with ⟨c, hfood, hevs, hcb, hcc, rfl⟩ |
      ⟨nt, hnf, hevs, htb, hnt, rfl⟩
    · rw [hcellnp] at hfood
      exact ⟨ps ++ [np], c, preserve_eat hg hd4 hmp hnpb hfood hcb hcc⟩
    · have hnp0 : m.cell np = EMPTY := by
        rcases ((check_collision_false_iff m np).mp hcol).2 with h6 | h0
        · exact absurd (hcellnp.trans h6) hnf
        · exact h0
      exact ⟨ps.tail ++ [np], fp, preserve_step hg hd4 hmp hnpb hnp0 hnt⟩

/-- Every reachable state satisfies the invariant. -/
theorem reachable_good {m : Map} (hm : Reachable m) :
    ∃ ps fp, GoodState m ps fp := by
  induction hm with
  | init w h cand m hi =>
    obtain ⟨fp, hg⟩ := init_good w h cand m hi
    exact ⟨[m.head], fp, hg⟩
  | step m d cand evs m' hr hmv ih =>
    obtain ⟨ps, fp, hg⟩ := ih
    exact move_preserves hg hmv

/-! ### Concrete reachable states used to instantiate the theorems -/

/-- The state `Map.init 2 2 [(0,0)]` produces: a 2x2 board, head at
`(1, 1)`, food at `(0, 0)`. -/
def M0 : Map :=
  { width := 2, height := 2, grid := [6, 0, 0, 5, 0],
    head := (1, 1), tail := (1, 1), length := 1 }

theorem M0_init : Map.init 2 2 [(0, 0)] = some M0 := by decide

theorem M0_reachable : Reachable M0 := Reachable.init 2 2 [(0, 0)] M0 M0_init

/-- Like `M0` but with the food directly north of the head, at `(1, 0)`. -/
def M1 : Map :=
  { width := 2, height := 2, grid := [0, 6, 0, 5, 0],
    head := (1, 1), tail := (1, 1), length := 1 }

theorem M1_init : Map.init 2 2 [(1, 0)] = some M1 := by decide

theorem M1_reachable : Reachable M1 := Reachable.init 2 2 [(1, 0)] M1 M1_init

/-! ### Counting cells -/

theorem mem_allPoints (m : Map) (p : Point) :
    p ∈ m.allPoints ↔ m.check_point p = true := by
  rw [check_point_iff]
  simp only [Map.allPoints, Finset.mem_image, Finset.mem_product,
    Finset.mem_range]
  constructor
  · rintro ⟨⟨a, b⟩, ⟨ha, hb⟩, rfl⟩
    refine ⟨?_, ?_, ?_, ?_⟩ <;> simp <;> omega
  · rintro ⟨h1, h2, h3, h4⟩
    refine ⟨(p.1.toNat, p.2.toNat), ⟨by omega, by omega⟩, ?_⟩
    exact Prod.ext (by simp; omega) (by simp; omega)

theorem allPoints_card (m : Map) :
    (m.allPoints).card = m.width * m.height := by
  have hinj : Function.Injective
      (fun q : Nat × Nat => ((Int.ofNat q.1, Int.ofNat q.2) : Point)) := by
    intro a b hab
    simp only [Prod.mk.injEq] at hab
    exact Prod.ext (Int.ofNat.inj hab.1) (Int.ofNat.inj hab.2)
  rw [Map.allPoints, Finset.card_image_of_injective _ hinj,
    Finset.card_product]
  simp

/-- In a good state the cells that are neither `EMPTY` nor `FOOD` are
exactly the snake path, so there are `length` of them. -/
theorem bodyCount_eq {m : Map} {ps : List Point} {fp : Point}
    (hg : GoodState m ps fp) : m.bodyCount = m.length := by
  have hset : (m.allPoints).filter
      (fun p => m.cell p ≠ EMPTY ∧ m.cell p ≠ FOOD) = ps.toFinset := by
    ext p
    simp only [Finset.mem_filter, mem_allPoints, List.mem_toFinset]
    constructor
    · rintro ⟨hb, h0, h6⟩
      by_contra hps
      have hfp : p ≠ fp := by
        intro heq
        rw [heq] at h6
        exact h6 hg.hfood
      exact h0 (hg.hempty p hb hps hfp)
    · intro hps
      refine ⟨hg.hbounds p hps, ?_, ?_⟩
      · have h1 := (hg.hbody p hps).1
        intro h0
        rw [h0] at h1
        exact absurd h1 (by decide)
      · have h5 := (hg.hbody p hps).2
        intro h6
        rw [h6] at h5
        exact absurd h5 (by decide)
  rw [Map.bodyCount, hset, List.toFinset_card_of_nodup hg.hnodup, hg.hlen]

/-! ### Following the stored directions from tail to head -/

theorem follow_chain (m : Map) :
    ∀ (l : List Point) (a : Point), Chain2 m (a :: l) →
      (∀ p ∈ a :: l, m.check_point p = true) →
      ∀ k (hk : k < (a :: l).length),
        m.follow a k = some ((a :: l).get ⟨k, hk⟩) := by
  intro l
  induction l with
  | nil =>
    intro a _ _ k hk
    have hk0 : k = 0 := by
      simp only [List.length_cons, List.length_nil] at hk
      omega
    subst hk0
    rfl
  | cons b rest ih =>
    intro a hch hb k hk
    cases k with
    | zero => rfl
    | succ k' =>
      have hstep : m.follow a (k' + 1) = m.follow b k' := by
        show (match m.getItem a with
          | .error _ => none
          | .ok v =>
            match move_point a v with
            | none => none
            | some q => m.follow q k') = m.follow b k'
        simp only [getItem_ok m a (hb a (List.mem_cons_self a _)), hch.1]
      rw [hstep]
      have hk' : k' < (b :: rest).length := by
        simp only [List.length_cons] at hk ⊢
        omega
      rw [ih b hch.2 (fun p hp => hb p (List.mem_cons_of_mem a hp)) k' hk']
      rfl

/-- The spec's implicit-path property (§3): following the stored
directions from `tail` for `length - 1` steps reaches `head`, and every
point visited on the way sits on a non-`EMPTY` cell. -/
def Map.pathOk (m : Map) : Prop :=
  m.follow m.tail (m.length - 1) = some m.head ∧
  ∀ k, k ≤ m.length - 1 →
    ∃ p, m.follow m.tail k = some p ∧ m.cell p ≠ EMPTY

theorem good_pathOk {m : Map} {ps : List Point} {fp : Point}
    (hg : GoodState m ps fp) : m.pathOk := by
  obtain ⟨l, hps⟩ := List.head?_eq_some_iff.mp hg.hfirst
  subst hps
  have hlen := hg.hlen
  have hne : (m.tail :: l : List Point) ≠ [] := by simp
  have hlpos : 1 ≤ m.length := hg.len_pos
  have hk2 : m.length - 1 < (m.tail :: l).length := by rw [hlen]; omega
  have hget : (m.tail :: l).get ⟨m.length - 1, hk2⟩ = m.head := by
    have hgetlast := (List.getLast_eq_iff_getLast?_eq_some hne).mpr hg.hlast
    rw [← hgetlast, List.getLast_eq_getElem]
    simp only [List.get_eq_getElem]
    congr 1
    rw [hlen]
  constructor
  · rw [follow_chain m l m.tail hg.hchain hg.hbounds (m.length - 1) hk2,
      hget]
  · intro k hk
    have hk' : k < (m.tail :: l).length := by rw [hlen]; omega
    refine ⟨(m.tail :: l).get ⟨k, hk'⟩,
      follow_chain m l m.tail hg.hchain hg.hbounds k hk', ?_⟩
    have hmem : (m.tail :: l).get ⟨k, hk'⟩ ∈ m.tail :: l :=
      List.get_mem _ _ _
    have h1 := (hg.hbody _ hmem).1
    intro h0
    rw [h0] at h1
    exact absurd h1 (by decide)

/-! ### Further concrete states -/

/-- The state after `M0.move NORTH []`: the snake stepped to `(1, 0)`. -/
def M0N : Map :=
  { width := 2, height := 2, grid := [6, 1, 0, 0, 0],
    head := (1, 0), tail := (1, 0), length := 1 }

theorem M0N_move : M0.move NORTH [] = some ([], M0N) := by decide

/-- The state after `M1.move NORTH [(0,0)]`: the food at `(1, 0)` was
eaten, the replacement food went to `(0, 0)`. -/
def M2 : Map :=
  { width := 2, height := 2, grid := [6, 1, 0, 1, 0],
    head := (1, 0), tail := (1, 1), length := 2 }

theorem M2_move : M1.move NORTH [(0, 0)] = some (["eat"], M2) := by decide

/-- State `Map.init 3 3 [(0,0)]`: 3x3 board, head `(1, 1)`, food `(0, 0)`. -/
def C5m : Map :=
  { width := 3, height := 3, grid := [6, 0, 0, 0, 5, 0, 0, 0, 0, 0],
    head := (1, 1), tail := (1, 1), length := 1 }

theorem C5m_init : Map.init 3 3 [(0, 0)] = some C5m := by decide

theorem C5m_reachable : Reachable C5m :=
  Reachable.init 3 3 [(0, 0)] C5m C5m_init

/-- The state after `C5m.move NORTH []`. -/
def C5mN : Map :=
  { width := 3, height := 3, grid := [6, 1, 0, 0, 0, 0, 0, 0, 0, 0],
    head := (1, 0), tail := (1, 0), length := 1 }

theorem C5mN_move : C5m.move NORTH [] = some ([], C5mN) := by decide

/-! ### The claims -/

/-- C1: for every reachable engine state (freshly constructed, or obtained
from a reachable state by a completed `move()` call), exactly one grid cell
holds the value `FOOD`. -/
theorem C1_exactly_one_food (m : Map) (hm : Reachable m) :
    ∃! p : Point, m.check_point p = true ∧ m.cell p = FOOD := by
  obtain ⟨ps, fp, hg⟩ := reachable_good hm
  exact ⟨fp, ⟨hg.hfb, hg.hfood⟩, fun q hq => hg.food_unique q hq.1 hq.2⟩

theorem C1_witness :
    ∃! p : Point, M0.check_point p = true ∧ M0.cell p = FOOD :=
  C1_exactly_one_food M0 M0_reachable

/-- C2: in a reachable state, if the cell one step toward a real direction
`d` from the head holds `FOOD`, then a completed `move d` returns exactly
`["eat"]`, `length` grows by exactly 1, the head moves onto the old food
cell and that cell now stores `d`, and some other cell now holds `FOOD`
(always a genuinely different cell: `place_food` only writes `EMPTY`
cells, and it only returns at all when one exists). -/
theorem C2_eat (m : Map) (hm : Reachable m) (d : Nat)
    (hd : d = NORTH ∨ d = EAST ∨ d = SOUTH ∨ d = WEST)
    (np : Point) (hmp : move_point m.head d = some np)
    (hfood : m.getItem np = .ok FOOD)
    (cand : List Point) (evs : List String) (m' : Map)
    (hmv : m.move d cand = some (evs, m')) :
    evs = ["eat"] ∧ m'.length = m.length + 1 ∧
    m'.head = np ∧ m'.cell np = d ∧
    ∃ c, c ≠ np ∧ m'.check_point c = true ∧ m'.cell c = FOOD := by
  obtain ⟨ps, fp, hg⟩ := reachable_good hm
  have hd4 : 1 ≤ d ∧ d ≤ 4 := by
    rcases hd with h | h | h | h <;> subst h <;> exact (by decide)
  have hnpb : m.check_point np = true := by
    by_contra hb
    rw [getItem_err m np (by simpa using hb)] at hfood
    simp at hfood
  have hnpc : m.cell np = FOOD := by
    rw [getItem_ok m np hnpb] at hfood
    simpa using hfood
  have hnph : np ≠ m.head := np_ne_of_dir hd4 hmp
  obtain ⟨np', hmp', hcase⟩ := move_cases m d cand evs m' hmv
  rw [hmp, Option.some_inj] at hmp'
  subst hmp'
  have hcolf : m.check_collision np = false :=
    (check_collision_false_iff m np).mpr ⟨hnpb, Or.inl hnpc⟩
  rcases hcase with ⟨hcol, _, _⟩ | ⟨_, hhd, _, hcase⟩
  · rw [hcolf] at hcol
    exact absurd hcol (by decide)
  · have hput : (m.put m.head d).cell np = m.cell np :=
      cell_put_ne m m.head np d hhd hnpb hnph
    rcases hcase with ⟨c, hf1, hevs, hcb, hcc, rfl⟩ |
      ⟨nt, hnf, _, _, _, _⟩
    · have hcnnp : c ≠ np := by
        intro heq
        rw [heq, hput, hnpc] at hcc
        exact absurd hcc (by decide)
      refine ⟨hevs, rfl, rfl, ?_, c, hcnnp, hcb, ?_⟩
      · exact cell_three_puts_last m m.head c np d FOOD d hnpb hg.hgl
      · exact cell_three_puts_mid m m.head c np d FOOD d hcb hnpb hg.hgl
          hcnnp
    · rw [hput, hnpc] at hnf
      exact absurd rfl hnf

theorem C2_witness :
    (["eat"] : List String) = ["eat"] ∧ M2.length = M1.length + 1 ∧
    M2.head = ((1, 0) : Point) ∧ M2.cell (1, 0) = NORTH ∧
    ∃ c, c ≠ ((1, 0) : Point) ∧ M2.check_point c = true ∧
      M2.cell c = FOOD :=
  C2_eat M1 M1_reachable NORTH (Or.inl rfl) (1, 0) (by decide) (by rfl)
    [(0, 0)] ["eat"] M2 M2_move

/-- C3: in a reachable state, a `move` whose shifted head lands outside
`[0,width) x [0,height)` returns exactly `["die"]` with the state object
returned unchanged; more generally, whenever a completed `move` reports
`"die"` it reports nothing else and the state is left as-is. -/
theorem C3_wall_die (m : Map) (hm : Reachable m) (d : Nat)
    (cand : List Point) (evs : List String) (m' : Map)
    (hmv : m.move d cand = some (evs, m')) (np : Point)
    (hmp : move_point m.head d = some np) :
    (m.check_point np = false → evs = ["die"] ∧ m' = m) ∧
    ("die" ∈ evs → evs = ["die"] ∧ m' = m) := by
  obtain ⟨np', hmp', hcase⟩ := move_cases m d cand evs m' hmv
  rw [hmp, Option.some_inj] at hmp'
  subst hmp'
  constructor
  · intro hb
    rcases hcase with ⟨_, hevs, hst⟩ | ⟨hcol, _, _, _⟩
    · exact ⟨hevs, hst⟩
    · rw [(check_collision_false_iff m np).mp hcol |>.1] at hb
      exact absurd hb (by decide)
  · intro hdie
    rcases hcase with ⟨_, hevs, hst⟩ | ⟨_, _, _, hcase⟩
    · exact ⟨hevs, hst⟩
    · rcases hcase with ⟨c, _, hevs, _⟩ | ⟨nt, _, hevs, _⟩
      · rw [hevs] at hdie
        exact absurd hdie (by decide)
      · rw [hevs] at hdie
        exact absurd hdie (by decide)

theorem C3m_move : M0.move SOUTH [] = some (["die"], M0) := by decide

theorem C3_witness :
    (M0.check_point (1, 2) = false →
      (["die"] : List String) = ["die"] ∧ M0 = M0) ∧
    ("die" ∈ (["die"] : List String) →
      (["die"] : List String) = ["die"] ∧ M0 = M0) :=
  C3_wall_die M0 M0_reachable SOUTH [] ["die"] M0 C3m_move (1, 2)
    (by decide)

/-- C4: across every completed `move` on a reachable state, `length` never
decreases; it grows by exactly 1 when `"eat"` is reported and is unchanged
otherwise. -/
theorem C4_length_monotone (m : Map) (hm : Reachable m) (d : Nat)
    (cand : List Point) (evs : List String) (m' : Map)
    (hmv : m.move d cand = some (evs, m')) :
    m.length ≤ m'.length ∧
    ("eat" ∈ evs → m'.length = m.length + 1) ∧
    ("eat" ∉ evs → m'.length = m.length) := by
  obtain ⟨np, hmp, hcase⟩ := move_cases m d cand evs m' hmv
  rcases hcase with ⟨_, hevs, rfl⟩ | ⟨_, _, _, hcase⟩
  · subst hevs
    exact ⟨Nat.le_refl _, fun hmem => absurd hmem (by decide), fun _ => rfl⟩
  · rcases hcase with ⟨c, _, hevs, _, _, rfl⟩ | ⟨nt, _, hevs, _, _, rfl⟩
    · subst hevs
      exact ⟨Nat.le_succ _, fun _ => rfl,
        fun hnot => absurd (List.mem_singleton_self _) hnot⟩
    · subst hevs
      exact ⟨Nat.le_refl _, fun hmem => absurd hmem (List.not_mem_nil _),
        fun _ => rfl⟩

theorem C4_witness :
    M1.length ≤ M2.length ∧
    ("eat" ∈ (["eat"] : List String) → M2.length = M1.length + 1) ∧
    ("eat" ∉ (["eat"] : List String) → M2.length = M1.length) :=
  C4_length_monotone M1 M1_reachable NORTH [(0, 0)] ["eat"] M2 M2_move

/-- C5, counterexample to the claim as stated: in the reachable state
obtained by `Map.init 3 3 [(0,0)]` followed by the non-colliding
`move NORTH []`, the number of non-`EMPTY` cells is 2 (the snake cell and
the food cell), not `length = 1`. -/
theorem C5_counterexample :
    Map.init 3 3 [(0, 0)] = some C5m ∧
    C5m.move NORTH [] = some ([], C5mN) ∧
    ([] : List String) ≠ ["die"] ∧
    C5mN.nonEmptyCount = 2 ∧ C5mN.length = 1 := by
  refine ⟨C5m_init, C5mN_move, by decide, ?_, rfl⟩
  decide

/-- C5, amended: after a completed non-colliding `move` on a reachable
state, the number of cells that are neither `EMPTY` nor `FOOD` (the cells
occupied by the snake body) equals `length`; the food cell makes the
non-`EMPTY` count `length + 1`. -/
theorem C5_body_count (m : Map) (hm : Reachable m) (d : Nat)
    (cand : List Point) (evs : List String) (m' : Map)
    (hmv : m.move d cand = some (evs, m')) (hnd : evs ≠ ["die"]) :
    m'.bodyCount = m'.length := by
  obtain ⟨ps, fp, hg⟩ :=
    reachable_good (Reachable.step m d cand evs m' hm hmv)
  exact bodyCount_eq hg

theorem C5_witness : M0N.bodyCount = M0N.length :=
  C5_body_count M0 M0_reachable NORTH [] [] M0N M0N_move (by decide)

/-- C6: every reachable state satisfies the implicit-path invariant
(`length - 1` steps of direction-following from `tail` reach `head`, and
every visited cell is non-`EMPTY`), and from any reachable state the
invariant is preserved by any completed non-colliding `move`. -/
theorem C6_path_invariant (m : Map) (hm : Reachable m) :
    m.pathOk ∧
    ∀ d (cand : List Point) evs m', m.move d cand = some (evs, m') →
      evs ≠ ["die"] → Map.pathOk m' := by
  obtain ⟨ps, fp, hg⟩ := reachable_good hm
  refine ⟨good_pathOk hg, ?_⟩
  intro d cand evs m' hmv _
  obtain ⟨ps', fp', hg'⟩ := move_preserves hg hmv
  exact good_pathOk hg'

theorem C6_witness :
    M0.pathOk ∧
    ∀ d (cand : List Point) evs m', M0.move d cand = some (evs, m') →
      evs ≠ ["die"] → Map.pathOk m' :=
  C6_path_invariant M0 M0_reachable

/-- C7: for `width, height ≥ 1`, a completed construction yields a state
whose addressable grid is exactly the `width * height` cells of
`[0,width) x [0,height)`, all `EMPTY` except the head cell
(`NO_DIRECTION`) and one `FOOD` cell; the head is at
`(⌊width/2⌋, ⌊height/2⌋)`, `tail = head` and `length = 1`. -/
theorem C7_construct (w h : Nat) (hw : 1 ≤ w) (hh : 1 ≤ h)
    (cand : List Point) (m : Map)
    (hi : Map.init w h cand = some m) :
    m.width = w ∧ m.height = h ∧
    m.head = (Int.ofNat (w / 2), Int.ofNat (h / 2)) ∧
    m.tail = m.head ∧ m.length = 1 ∧
    (m.allPoints).card = w * h ∧
    (∀ p : Point, p ∈ m.allPoints ↔ m.check_point p = true) ∧
    m.cell m.head = NO_DIRECTION ∧
    ∃ c, m.check_point c = true ∧ c ≠ m.head ∧ m.cell c = FOOD ∧
      ∀ p : Point, m.check_point p = true → p ≠ m.head → p ≠ c →
        m.cell p = EMPTY := by
  obtain ⟨c, h1w, h1h, hwd, hht, hhd, htl, hlen, hgl, hhb, hcb, hcne,
    hcellh, hcellc, hemp⟩ := init_spec w h cand m hi
  refine ⟨hwd, hht, hhd, htl, hlen, ?_, fun p => mem_allPoints m p,
    hcellh, c, hcb, hcne, hcellc, hemp⟩
  rw [allPoints_card, hwd, hht]

theorem C7_witness :
    M0.width = 2 ∧ M0.height = 2 ∧
    M0.head = (Int.ofNat (2 / 2), Int.ofNat (2 / 2)) ∧
    M0.tail = M0.head ∧ M0.length = 1 ∧
    (M0.allPoints).card = 2 * 2 ∧
    (∀ p : Point, p ∈ M0.allPoints ↔ M0.check_point p = true) ∧
    M0.cell M0.head = NO_DIRECTION ∧
    ∃ c, M0.check_point c = true ∧ c ≠ M0.head ∧ M0.cell c = FOOD ∧
      ∀ p : Point, M0.check_point p = true → p ≠ M0.head → p ≠ c →
        M0.cell p = EMPTY :=
  C7_construct 2 2 (by decide) (by decide) [(0, 0)] M0 M0_init

/-- C8: the bounds-checked read `__getitem__` fails with an error carrying
the offending point exactly when that point lies outside
`[0,width) x [0,height)`; any in-bounds read returns the cell value
without error, and `move_point` itself never fails on the five valid
direction values, so the out-of-bounds check is the sole error source of
the core on its specified inputs. -/
theorem C8_get_bounds (m : Map) (p : Point) :
    (m.getItem p = .error p ↔
      ¬(0 ≤ p.1 ∧ p.1 < (m.width : Int) ∧ 0 ≤ p.2 ∧
        p.2 < (m.height : Int))) ∧
    ((0 ≤ p.1 ∧ p.1 < (m.width : Int) ∧ 0 ≤ p.2 ∧ p.2 < (m.height : Int)) →
      m.getItem p = .ok (m.cell p)) ∧
    (∀ d, 1 ≤ d → d ≤ 5 → (move_point p d).isSome = true) := by
  refine ⟨⟨?_, ?_⟩, ?_, ?_⟩
  · intro herr hin
    rw [getItem_ok m p ((check_point_iff m p).mpr hin)] at herr
    simp at herr
  · intro hnin
    refine getItem_err m p ?_
    by_contra hb
    have hb' : m.check_point p = true := by simpa using hb
    exact hnin ((check_point_iff m p).mp hb')
  · intro hin
    exact getItem_ok m p ((check_point_iff m p).mpr hin)
  · intro d h1 h5
    have h15 : d = 1 ∨ d = 2 ∨ d = 3 ∨ d = 4 ∨ d = 5 := by omega
    rcases h15 with h | h | h | h | h <;> subst h <;> rfl

/-- C9: deleting the conditional write of main.py lines 79-80 (set the
head cell to the direction if it is still `NO_DIRECTION`) changes nothing:
the very next line repeats the same write unconditionally, so the two
`move` variants agree on every state, direction and candidate stream. -/
theorem C9_redundant_write (m : Map) (d : Nat) (cand : List Point) :
    m.moveUncondOnly d cand = m.move d cand := by
  unfold Map.move Map.moveUncondOnly
  cases hmp : move_point m.head d with
  | none => rfl
  | some np =>
    by_cases hcol : m.check_collision np = true
    · simp [hcol]
    · have hcol' : m.check_collision np = false := by simpa using hcol
      simp only [hcol', Bool.false_eq_true, if_false]
      by_cases hhd : m.check_point m.head = true
      · rw [getItem_ok m m.head hhd, setItem_ok m m.head d hhd]
        simp only []
        have hs2 : (m.put m.head d).setItem m.head d
            = .ok ((m.put m.head d).put m.head d) :=
          setItem_ok (m.put m.head d) m.head d hhd
        by_cases hv : m.cell m.head = NO_DIRECTION
        · rw [if_pos hv]
          simp only [put_head, hs2, put_put_same]
        · rw [if_neg hv]
          simp only [setItem_ok m m.head d hhd]
      · have hhd' : m.check_point m.head = false := by simpa using hhd
        rw [getItem_err m m.head hhd']
        have hserr : m.setItem m.head d = .error m.head := by
          simp [Map.setItem, hhd']
        rw [hserr]

/-- C10: in a reachable state, `move NO_DIRECTION` always returns exactly
`["die"]` and leaves the state unchanged: the shifted head equals the
current head, whose cell is neither `EMPTY` nor `FOOD`, so the collision
check fires. -/
theorem C10_no_direction_dies (m : Map) (hm : Reachable m)
    (cand : List Point) :
    move_point m.head NO_DIRECTION = some m.head ∧
    m.cell m.head ≠ EMPTY ∧ m.cell m.head ≠ FOOD ∧
    m.check_collision m.head = true ∧
    m.move NO_DIRECTION cand = some (["die"], m) := by
  obtain ⟨ps, fp, hg⟩ := reachable_good hm
  have hmp : move_point m.head NO_DIRECTION = some m.head := rfl
  have hb := hg.hbounds _ hg.head_mem
  obtain ⟨h1, h5⟩ := hg.hbody _ hg.head_mem
  have hne : m.cell m.head ≠ EMPTY := by
    simp only [EMPTY]
    omega
  have hnf : m.cell m.head ≠ FOOD := by
    simp only [FOOD]
    omega
  have hcol : m.check_collision m.head = true := by
    unfold Map.check_collision
    rw [getItem_ok m m.head hb]
    simp [hnf, hne]
  refine ⟨hmp, hne, hnf, hcol, ?_⟩
  unfold Map.move
  rw [hmp]
  simp [hcol]

theorem C10_witness :
    move_point M0.head NO_DIRECTION = some M0.head ∧
    M0.cell M0.head ≠ EMPTY ∧ M0.cell M0.head ≠ FOOD ∧
    M0.check_collision M0.head = true ∧
    M0.move NO_DIRECTION [] = some (["die"], M0) :=
  C10_no_direction_dies M0 M0_reachable []

end Snake
